import Mathlib

/-!
Shallow embedding of the contact-book program in `src/main8.py` (classes
`Phone`, `Birthday`, `Record`, `AddressBook` and the method
`AddressBook.get_upcoming_birthdays`), together with proofs about it.

Modelling conventions:
* Python `date` objects are `PyDate` triples of naturals; `date`
  comparison and `timedelta` arithmetic are carried out on the proleptic
  Gregorian ordinal (`toOrdinal`, identical to Python's
  `date.toordinal`), which agrees with Python's field-wise comparison on
  valid dates.  Python dates are restricted to the years 1..9999;
  `date.replace` and `date + timedelta` raise when they would leave that
  range, which the embedding models with `Option`.
* Raising an exception is modelled by `Except`/`Option` results; a
  function of the program that can raise returns `Except PyErr` (with the
  exception message) or `Option` where only the fact of raising matters.
* `date.today()` is an input of the embedded `get_upcoming_birthdays`.
* Python strings are Lean `String`s (sequences of unicode code points,
  as in CPython).  `str.isdigit` and the decimal-digit category `Nd`
  (the class `\d` of `_strptime`'s regex, also what `int()` reads) are
  modelled by the code-point range tables `pyIsDigitChar` and
  `isNdChar`, generated from CPython 3.11 / Unicode 14.0 character
  data.
-/

/-- Python exceptions carrying a message; the program only ever raises
`ValueError` (the spec calls the validation ones ValidationError and the
lookup ones NotFoundError, distinguished here by their message). -/
inductive PyErr : Type where
  | valueError (msg : String) : PyErr
deriving DecidableEq, Repr

/-- A calendar date as in Python's `datetime.date`: year, month, day. -/
structure PyDate : Type where
  year : Nat
  month : Nat
  day : Nat
deriving DecidableEq, Repr

/-- Gregorian leap-year rule, as in Python's `calendar.isleap`. -/
def isLeapYear (y : Nat) : Bool :=
  y % 4 == 0 && (y % 100 != 0 || y % 400 == 0)

/-- Number of days in a month, as used by `datetime.date`'s validation. -/
def daysInMonth (y m : Nat) : Nat :=
  if m = 2 then (if isLeapYear y then 29 else 28)
  else if m = 4 ∨ m = 6 ∨ m = 9 ∨ m = 11 then 30
  else 31

/-- Days in year `y` strictly before month `m` (for `m` in 1..12). -/
def daysBeforeMonth (y m : Nat) : Nat :=
  (if m ≤ 1 then 0
   else if m = 2 then 31
   else if m = 3 then 59
   else if m = 4 then 90
   else if m = 5 then 120
   else if m = 6 then 151
   else if m = 7 then 181
   else if m = 8 then 212
   else if m = 9 then 243
   else if m = 10 then 273
   else if m = 11 then 304
   else 334)
  + (if 3 ≤ m then (if isLeapYear y then 1 else 0) else 0)

/-- The argument check of the `datetime.date` constructor: years 1..9999,
months 1..12, days 1..(length of the month).  `date.replace` re-runs this
check and raises `ValueError` when it fails. -/
def dateValid (y m d : Nat) : Bool :=
  1 ≤ y && y ≤ 9999 && 1 ≤ m && m ≤ 12 && 1 ≤ d && d ≤ daysInMonth y m

/-- Python's `date.toordinal`: day count in the proleptic Gregorian
calendar with day 1 = 0001-01-01. -/
def toOrdinal (dt : PyDate) : Nat :=
  365 * (dt.year - 1) + (dt.year - 1) / 4 - (dt.year - 1) / 100
    + (dt.year - 1) / 400 + daysBeforeMonth dt.year dt.month + dt.day

/-- Ordinal of `date.max = 9999-12-31`, past which Python date
arithmetic raises `OverflowError`. -/
def pyDateMaxOrdinal : Nat := toOrdinal ⟨9999, 12, 31⟩

/-- Python's `date.weekday` on an ordinal: 0 = Monday .. 6 = Sunday
(0001-01-01, ordinal 1, is a Monday). -/
def weekdayOfOrdinal (o : Nat) : Nat := (o + 6) % 7

/-- ASCII decimal digit 0-9.  This is the "decimal digit character" of the
specification (Python's `str.isdecimal` restricted to the ASCII block
also holds exactly of these among the characters below). -/
def decimalDigitChar (c : Char) : Bool := '0' ≤ c && c ≤ '9'

/-- The code-point ranges of the Unicode general category `Nd` (decimal
digits), Unicode 14.0 as shipped with CPython 3.11.  These are exactly
the characters of `str.isdecimal`, the characters the regex class `\d`
matches, and the digits `int()` reads.  Every range is a run of aligned
decades: the decimal value of a character is its offset in the range
modulo 10. -/
def ndRanges : List (Nat × Nat) :=
  [(0x30, 0x39), (0x660, 0x669), (0x6f0, 0x6f9), (0x7c0, 0x7c9),
   (0x966, 0x96f), (0x9e6, 0x9ef), (0xa66, 0xa6f), (0xae6, 0xaef),
   (0xb66, 0xb6f), (0xbe6, 0xbef), (0xc66, 0xc6f), (0xce6, 0xcef),
   (0xd66, 0xd6f), (0xde6, 0xdef), (0xe50, 0xe59), (0xed0, 0xed9),
   (0xf20, 0xf29), (0x1040, 0x1049), (0x1090, 0x1099), (0x17e0, 0x17e9),
   (0x1810, 0x1819), (0x1946, 0x194f), (0x19d0, 0x19d9),
   (0x1a80, 0x1a89), (0x1a90, 0x1a99), (0x1b50, 0x1b59),
   (0x1bb0, 0x1bb9), (0x1c40, 0x1c49), (0x1c50, 0x1c59),
   (0xa620, 0xa629), (0xa8d0, 0xa8d9), (0xa900, 0xa909),
   (0xa9d0, 0xa9d9), (0xa9f0, 0xa9f9), (0xaa50, 0xaa59),
   (0xabf0, 0xabf9), (0xff10, 0xff19), (0x104a0, 0x104a9),
   (0x10d30, 0x10d39), (0x11066, 0x1106f), (0x110f0, 0x110f9),
   (0x11136, 0x1113f), (0x111d0, 0x111d9), (0x112f0, 0x112f9),
   (0x11450, 0x11459), (0x114d0, 0x114d9), (0x11650, 0x11659),
   (0x116c0, 0x116c9), (0x11730, 0x11739), (0x118e0, 0x118e9),
   (0x11950, 0x11959), (0x11c50, 0x11c59), (0x11d50, 0x11d59),
   (0x11da0, 0x11da9), (0x16a60, 0x16a69), (0x16ac0, 0x16ac9),
   (0x16b50, 0x16b59), (0x1d7ce, 0x1d7ff), (0x1e140, 0x1e149),
   (0x1e2f0, 0x1e2f9), (0x1e950, 0x1e959), (0x1fbf0, 0x1fbf9)]

/-- Membership in the Unicode `Nd` category: Python's `str.isdecimal`
per character, and the regex class `\d`. -/
def isNdChar (c : Char) : Bool :=
  ndRanges.any (fun r => r.1 ≤ c.toNat && c.toNat ≤ r.2)

/-- The decimal value of an `Nd` character, as `int()` reads it (offset
in its aligned-decade range, modulo 10); 0 on non-digits. -/
def ndVal (c : Char) : Nat :=
  match ndRanges.find? (fun r => r.1 ≤ c.toNat && c.toNat ≤ r.2) with
  | some r => (c.toNat - r.1) % 10
  | none => 0

/-- The code-point ranges with Unicode property `Numeric_Type = Digit`
that are not in `Nd` (Unicode 14.0 / CPython 3.11): superscripts and
subscripts, Ethiopic digits, circled/parenthesized/full-stop digits, and
a few historic scripts.  Python's `str.isdigit` accepts these although
they are not decimal digits (`str.isdecimal` and `int()` reject
them). -/
def pyDigitExtraRanges : List (Nat × Nat) :=
  [(0xb2, 0xb3), (0xb9, 0xb9), (0x1369, 0x1371), (0x19da, 0x19da),
   (0x2070, 0x2070), (0x2074, 0x2079), (0x2080, 0x2089),
   (0x2460, 0x2468), (0x2474, 0x247c), (0x2488, 0x2490),
   (0x24ea, 0x24ea), (0x24f5, 0x24fd), (0x24ff, 0x24ff),
   (0x2776, 0x277e), (0x2780, 0x2788), (0x278a, 0x2792),
   (0x10a40, 0x10a43), (0x10e60, 0x10e68), (0x11052, 0x1105a),
   (0x1f100, 0x1f10a)]

/-- Python's `str.isdigit` character test: the decimal digits (`Nd`)
plus the `Numeric_Type = Digit` extras. -/
def pyIsDigitChar (c : Char) : Bool :=
  isNdChar c
  || pyDigitExtraRanges.any (fun r => r.1 ≤ c.toNat && c.toNat ≤ r.2)

/-- Python's `str.isdigit`: non-empty and every character a digit. -/
def pyStrIsDigit (s : String) : Bool :=
  !s.data.isEmpty && s.data.all pyIsDigitChar

/-- The ASCII regex class `[1-9]` (a by-code-point range, so
ASCII-only even in Unicode mode). -/
def asciiDigit19 (c : Char) : Bool := 49 ≤ c.toNat && c.toNat ≤ 57

/-- Value of a string of digit characters read in base 10 by `int()`
(each character contributes its Unicode decimal value, so mixed scripts
are read digit-wise). -/
def digitsVal (cs : List Char) : Nat :=
  cs.foldl (fun a c => a * 10 + ndVal c) 0

/-- Whole-group recognizer for `%d`: CPython `_strptime` compiles `%d`
to the regex group `3[01]|[12]\d|0[1-9]|[1-9]`.  The literals and the
bracketed classes are ASCII by-code-point, while `\d` matches any
Unicode decimal digit (`Nd`) — so e.g. `2٩` matches (day 29) but `٢9`
does not. -/
def dayGroupMatch : List Char → Bool
  | [c1] => asciiDigit19 c1
  | [c1, c2] =>
    ((c1 == '3') && (c2 == '0' || c2 == '1'))
    || ((c1 == '1' || c1 == '2') && isNdChar c2)
    || ((c1 == '0') && asciiDigit19 c2)
  | _ => false

/-- Whole-group recognizer for `%m`: the regex group
`1[0-2]|0[1-9]|[1-9]`, entirely ASCII (no `\d` occurs in it). -/
def monthGroupMatch : List Char → Bool
  | [c1] => asciiDigit19 c1
  | [c1, c2] =>
    ((c1 == '1') && (48 ≤ c2.toNat && c2.toNat ≤ 50))
    || ((c1 == '0') && asciiDigit19 c2)
  | _ => false

/-- Whole-group recognizer for `%Y`: the regex group `\d\d\d\d` —
exactly four Unicode decimal digits, scripts freely mixed. -/
def yearGroupMatch : List Char → Bool
  | [c1, c2, c3, c4] =>
    isNdChar c1 && isNdChar c2 && isNdChar c3 && isNdChar c4
  | _ => false

/-- Incremental consumption of the `%d` group.  Because in the format
`%d.%m.%Y` each group is followed by the literal `.`, the alternation is
deterministic: every two-character alternative ends in a digit-class
character, which can never be the `.` the one-character fallback would
need next, so the parser can commit to the first alternative that
matches (they are first-character disjoint). -/
def parseDayTok : List Char → Option (Nat × List Char)
  | c1 :: c2 :: rest =>
    if (c1 == '3') && (c2 == '0' || c2 == '1') then
      some (ndVal c1 * 10 + ndVal c2, rest)
    else if (c1 == '1' || c1 == '2') && isNdChar c2 then
      some (ndVal c1 * 10 + ndVal c2, rest)
    else if (c1 == '0') && asciiDigit19 c2 then
      some (ndVal c1 * 10 + ndVal c2, rest)
    else if asciiDigit19 c1 then
      some (ndVal c1, c2 :: rest)
    else none
  | [c1] =>
    if asciiDigit19 c1 then some (ndVal c1, ([] : List Char)) else none
  | [] => none

/-- Incremental consumption of the `%m` group (same determinism argument
as for the day group). -/
def parseMonthTok : List Char → Option (Nat × List Char)
  | c1 :: c2 :: rest =>
    if (c1 == '1') && (48 ≤ c2.toNat && c2.toNat ≤ 50) then
      some (ndVal c1 * 10 + ndVal c2, rest)
    else if (c1 == '0') && asciiDigit19 c2 then
      some (ndVal c1 * 10 + ndVal c2, rest)
    else if asciiDigit19 c1 then
      some (ndVal c1, c2 :: rest)
    else none
  | [c1] =>
    if asciiDigit19 c1 then some (ndVal c1, ([] : List Char)) else none
  | [] => none

/-- Incremental consumption of the `%Y` group: four `Nd` digits, read by
`int()` digit-wise. -/
def parseYear4 : List Char → Option (Nat × List Char)
  | c1 :: c2 :: c3 :: c4 :: rest =>
    if isNdChar c1 && isNdChar c2 && isNdChar c3 && isNdChar c4 then
      some (((ndVal c1 * 10 + ndVal c2) * 10 + ndVal c3) * 10
              + ndVal c4, rest)
    else none
  | _ => none

/-- The literal `.` of the compiled regex: consume one dot. -/
def expectDot : List Char → Option (List Char)
  | c :: rest => if c = '.' then some rest else none
  | [] => none

/-- Regex match of the whole string against the pattern `_strptime`
compiles for `"%d.%m.%Y"` (day group, literal dot, month group, literal
dot, year group, end of string), returning the `int()` values of the
three groups. -/
def regexMatchDMY (cs : List Char) : Option (Nat × Nat × Nat) :=
  (parseDayTok cs).bind fun dres =>
  (expectDot dres.2).bind fun cs2 =>
  (parseMonthTok cs2).bind fun mres =>
  (expectDot mres.2).bind fun cs4 =>
  (parseYear4 cs4).bind fun yres =>
  if yres.2.isEmpty then some (dres.1, mres.1, yres.1) else none

/-- Python's `datetime.strptime(s, "%d.%m.%Y").date()`: regex match, then
construction of the date (which re-validates, e.g. rejects 31.04 and year
0000); `none` models the raised `ValueError`. -/
def strptimeDMY (s : String) : Option PyDate :=
  (regexMatchDMY s.data).bind fun t =>
  if dateValid t.2.2 t.2.1 t.1 then some ⟨t.2.2, t.2.1, t.1⟩ else none

/-- Class `Phone` of `main8.py`: a `Field` holding the phone string. -/
structure Phone : Type where
  value : String
deriving DecidableEq, Repr

/-- `Phone.validate` of `main8.py`: `isinstance(value, str) and
value.isdigit() and len(value) == 10` (the `isinstance` test is `True`
for every modelled input, which is a string). -/
def Phone.validate (s : String) : Bool :=
  pyStrIsDigit s && s.length == 10

/-- `Phone.__init__`: raises `ValueError` unless `validate` holds. -/
def Phone.make (s : String) : Except PyErr Phone :=
  if Phone.validate s then .ok ⟨s⟩
  else .error (.valueError "Phone number must contain exactly 10 digits.")

/-- Class `Birthday` of `main8.py`: stores the raw string. -/
structure Birthday : Type where
  value : String
deriving DecidableEq, Repr

/-- `Birthday.__init__` on a string argument: `datetime.strptime(value,
"%d.%m.%Y")` validates, and on success the string itself is stored.
(The non-string branch of the constructor is unrepresentable in the typed
embedding.) -/
def Birthday.make (s : String) : Except PyErr Birthday :=
  if (strptimeDMY s).isSome then .ok ⟨s⟩
  else .error (.valueError "Invalid date format. Use DD.MM.YYYY")

/-- Class `Record` of `main8.py`: a name, a phone list, an optional
birthday. -/
structure Record : Type where
  name : String
  phones : List Phone
  birthday : Option Birthday
deriving DecidableEq, Repr

/-- `Record.__init__(name)`. -/
def Record.new (name : String) : Record := ⟨name, [], none⟩

/-- `Record.find_phone`: first phone whose value equals `number`. -/
def Record.find_phone (r : Record) (number : String) : Option Phone :=
  r.phones.find? (fun p => p.value == number)

/-- `Record.add_phone`: validates and appends. -/
def Record.add_phone (r : Record) (phone_number : String) :
    Except PyErr Record :=
  match Phone.make phone_number with
  | .ok p => .ok { r with phones := r.phones ++ [p] }
  | .error e => .error e

/-- `Record.remove_phone`: removes the first matching phone, raises if
absent. -/
def Record.remove_phone (r : Record) (phone_number : String) :
    Except PyErr Record :=
  match r.find_phone phone_number with
  | some p => .ok { r with phones := r.phones.erase p }
  | none => .error (.valueError "Phone not found.")

/-- `Record.edit_phone`, translated statement by statement with the
object state threaded through; the second component of the result is the
record's state when the method exits (normally or by exception).  The
method body is: look up `old` — the `raise` at line 81 happens before
any statement touches `self.phones`, so the state at that exit is the
entry state; compute the index; construct `Phone(new)` — a
`ValueError` here likewise precedes the mutation; finally perform the
single mutating statement `self.phones[idx] = Phone(new)`. -/
def Record.edit_phone (r : Record) (old new : String) :
    Except PyErr Unit × Record :=
  match r.find_phone old with
  | none => (.error (.valueError "Old phone not found."), r)
  | some p =>
    match Phone.make new with
    | .error e => (.error e, r)
    | .ok np =>
      (.ok (), { r with phones := r.phones.set (r.phones.indexOf p) np })

/-- `Record.add_birthday`: validates and overwrites the birthday. -/
def Record.add_birthday (r : Record) (birthday_str : String) :
    Except PyErr Record :=
  match Birthday.make birthday_str with
  | .ok b => .ok { r with birthday := some b }
  | .error e => .error e

/-- Class `AddressBook` of `main8.py`: a `UserDict`, i.e. an
insertion-ordered mapping from name to record, modelled as an
association list with distinct keys maintained dict-style. -/
structure AddressBook : Type where
  data : List (String × Record)
deriving DecidableEq, Repr

/-- Python dict assignment `data[k] = v`: overwrite in place if the key
is present (keeping its position), else append. -/
def dictInsert : List (String × Record) → String → Record →
    List (String × Record)
  | [], k, v => [(k, v)]
  | (k1, v1) :: t, k, v =>
    if k1 = k then (k, v) :: t else (k1, v1) :: dictInsert t k v

/-- `AddressBook.add_record`: `self.data[record.name.value] = record`. -/
def AddressBook.add_record (book : AddressBook) (r : Record) : AddressBook :=
  ⟨dictInsert book.data r.name r⟩

/-- `AddressBook.find`: `self.data.get(name)`. -/
def AddressBook.find (book : AddressBook) (name : String) : Option Record :=
  (book.data.find? (fun kv => kv.1 == name)).map Prod.snd

/-- `self.data.values()` in iteration (= insertion) order. -/
def AddressBook.values (book : AddressBook) : List Record :=
  book.data.map Prod.snd

/-- `date.replace(year=y)` on a parsed birthday: keeps month and day,
raises `ValueError` (modelled `none`) when the result is not a valid
date — notably for February 29 in a non-leap year, and for years
outside 1..9999. -/
def replaceYear (bd : PyDate) (y : Nat) : Option PyDate :=
  if dateValid y bd.month bd.day then some ⟨y, bd.month, bd.day⟩ else none

/-- Lines 128-131 of `main8.py`: anchor the birthday to the current year,
and to the next year instead when the anchored date is before today;
`none` models the `ValueError` either `replace` can raise. -/
def anchorBirthday (today bd : PyDate) : Option PyDate :=
  match replaceYear bd today.year with
  | none => none
  | some b =>
    if toOrdinal b < toOrdinal today then replaceYear bd (today.year + 1)
    else some b

/-- Lines 134-138 of `main8.py`: the reported greeting ordinal — the
anchored birthday shifted by 2 days from a Saturday and 1 day from a
Sunday.  (Within the matching window the shift provably cannot pass
`date.max`, since 9999-12-30 and 9999-12-31 fall on Thursday and Friday,
so the `timedelta` addition here never raises and needs no `Option`.) -/
def shiftWeekend (o : Nat) : Nat :=
  if weekdayOfOrdinal o == 5 then o + 2
  else if weekdayOfOrdinal o == 6 then o + 1
  else o

/-- One iteration of the loop of `get_upcoming_birthdays` (lines
118-140): `.error ()` when the iteration raises, `.ok none` when it
`continue`s or does not match, `.ok (some entry)` when it appends
`{"name": .., "birthday": ..}` (the greeting date as an ordinal). -/
def recordEntry (today : PyDate) (r : Record) :
    Except Unit (Option (String × Nat)) :=
  match r.birthday with
  | none => .ok none
  | some bObj =>
    match strptimeDMY bObj.value with
    | none => .ok none
    | some bd =>
      match anchorBirthday today bd with
      | none => .error ()
      | some b =>
        if toOrdinal today ≤ toOrdinal b && toOrdinal b ≤ toOrdinal today + 6
        then .ok (some (r.name, shiftWeekend (toOrdinal b)))
        else .ok none

/-- The whole loop of `get_upcoming_birthdays`: the collected entries in
iteration order, or `none` as soon as an iteration raises. -/
def collectEntries (today : PyDate) : List Record →
    Option (List (String × Nat))
  | [] => some []
  | r :: rs =>
    match recordEntry today r with
    | .error _ => none
    | .ok none => collectEntries today rs
    | .ok (some e) =>
      match collectEntries today rs with
      | none => none
      | some l => some (e :: l)

/-- `AddressBook.get_upcoming_birthdays` (lines 113-142), with `today`
supplied for `date.today()`.  `limit = today + timedelta(days=6)` raises
`OverflowError` when it passes `date.max`; then the loop; then
`sorted(result, key=lambda x: x["birthday"])` — a stable sort by greeting
date, modelled by the (equally stable) insertion sort.  `none` models
any raised exception. -/
def AddressBook.get_upcoming_birthdays (book : AddressBook)
    (today : PyDate) : Option (List (String × Nat)) :=
  if pyDateMaxOrdinal < toOrdinal today + 6 then none
  else
    match collectEntries today book.values with
    | none => none
    | some l => some (List.insertionSort (fun a b => a.2 ≤ b.2) l)

/-- The specification's reading of the `DD.MM.YYYY` contract: exactly
two digits, dot, two digits, dot, four digits, denoting a real calendar
date.  (Stated from the spec's words, for comparison with the
code-derived `strptimeDMY`.) -/
def specStrictDDMMYYYY (s : String) : Bool :=
  match s.data with
  | [d1, d2, s1, m1, m2, s2, y1, y2, y3, y4] =>
    d1.isDigit && d2.isDigit && s1 == '.' && m1.isDigit && m2.isDigit
      && s2 == '.' && y1.isDigit && y2.isDigit && y3.isDigit && y4.isDigit
      && dateValid (digitsVal [y1, y2, y3, y4]) (digitsVal [m1, m2])
           (digitsVal [d1, d2])
  | _ => false

/-- Declarative description of the strings `strptimeDMY` accepts: a day
group matching `3[01]|[12]\d|0[1-9]|[1-9]`, a dot, a month group
matching `1[0-2]|0[1-9]|[1-9]`, a dot, a year group of exactly four
Unicode decimal digits, with the three `int()` values forming a real
calendar date. -/
def lenientDMYRep (s : String) : Prop :=
  ∃ dcs mcs ycs,
    s.data = dcs ++ '.' :: (mcs ++ '.' :: ycs)
    ∧ dayGroupMatch dcs = true
    ∧ monthGroupMatch mcs = true
    ∧ yearGroupMatch ycs = true
    ∧ dateValid (digitsVal ycs) (digitsVal mcs) (digitsVal dcs) = true

/-- Is this record's stored birthday string a February 29 date?  (The
only stored birthdays whose re-anchoring can raise.) -/
def recordFeb29 (r : Record) : Bool :=
  match r.birthday with
  | none => false
  | some bObj =>
    match strptimeDMY bObj.value with
    | none => false
    | some bd => bd.month == 2 && bd.day == 29

instance decEqExcept {α β : Type} [DecidableEq α] [DecidableEq β] :
    DecidableEq (Except α β) := fun a b =>
  match a, b with
  | .ok x, .ok y =>
    if h : x = y then .isTrue (by rw [h])
    else .isFalse (by intro hc; injection hc; contradiction)
  | .error x, .error y =>
    if h : x = y then .isTrue (by rw [h])
    else .isFalse (by intro hc; injection hc; contradiction)
  | .ok _, .error _ => .isFalse (by intro hc; cases hc)
  | .error _, .ok _ => .isFalse (by intro hc; cases hc)

/-- Spot checks of the table-based model against CPython: the regex
accepts Arabic-Indic digits wherever `\d` occurs (year group, second
day character) and rejects them in the ASCII-literal positions. -/
lemma strptime_unicode_digit_checks :
    strptimeDMY "01.01.١٩٩٠" = some ⟨1990, 1, 1⟩
    ∧ strptimeDMY "2٩.02.2000" = some ⟨2000, 2, 29⟩
    ∧ strptimeDMY "٢9.02.2000" = none := by
  refine ⟨by decide, by decide, by decide⟩

/-- Spot checks of `pyIsDigitChar` against CPython's `str.isdigit`:
Thai decimal digits are digits, SUPERSCRIPT LATIN SMALL LETTER I
(U+2071) is not. -/
lemma isdigit_unicode_checks :
    pyStrIsDigit "๑๑๑๑๑๑๑๑๑๑" = true
    ∧ pyStrIsDigit "ⁱⁱⁱⁱⁱⁱⁱⁱⁱⁱ" = false := by
  refine ⟨by decide, by decide⟩

/-- Unfolding of a successful `Phone` construction. -/
lemma phone_make_ok {s : String} {p : Phone} (h : Phone.make s = .ok p) :
    p.value = s ∧ Phone.validate s = true := by
  unfold Phone.make at h
  by_cases hv : Phone.validate s = true
  · rw [if_pos hv] at h; injection h with h2; exact ⟨by rw [← h2], hv⟩
  · rw [if_neg hv] at h; cases h

/-- `Phone.validate` in propositional form: length 10 and every character
a Python digit. -/
lemma phone_validate_iff (s : String) :
    Phone.validate s = true ↔
      (s.length = 10 ∧ ∀ c ∈ s.data, pyIsDigitChar c = true) := by
  unfold Phone.validate pyStrIsDigit
  have hL : s.length = s.data.length := rfl
  simp only [Bool.and_eq_true, Bool.not_eq_true', beq_iff_eq,
    List.all_eq_true, List.isEmpty_eq_false, hL]
  constructor
  · rintro ⟨⟨hne, hall⟩, hlen⟩; exact ⟨hlen, hall⟩
  · rintro ⟨hlen, hall⟩
    refine ⟨⟨?_, hall⟩, hlen⟩
    intro hnil
    rw [hnil] at hlen
    simp at hlen

/-- First lookup after a dict assignment on the same key yields the
assigned value. -/
lemma find?_dictInsert (l : List (String × Record)) (k : String) (v : Record) :
    (dictInsert l k v).find? (fun kv => kv.1 == k) = some (k, v) := by
  induction l with
  | nil => simp [dictInsert, List.find?]
  | cons hd t ih =>
    obtain ⟨k1, v1⟩ := hd
    by_cases hk : k1 = k
    · subst hk; simp [dictInsert, List.find?]
    · have hb : (k1 == k) = false := by simp [hk]
      simp only [dictInsert, if_neg hk, List.find?, hb]
      exact ih

/-- C4 counterexample: the ten-character string `"²²²²²²²²²²"` (ten
SUPERSCRIPT TWO characters, which are not decimal digits — Python's
`str.isdecimal` rejects them and `int()` cannot read them) is
nevertheless accepted by the `Phone` constructor, because `str.isdigit`
counts superscript digits as digits.  The claim that construction fails
for every string containing a character that is not a decimal digit is
therefore false. -/
theorem phone_accepts_superscript_counterexample :
    Phone.make "²²²²²²²²²²" = .ok ⟨"²²²²²²²²²²"⟩
    ∧ "²²²²²²²²²²".length = 10
    ∧ ¬(∀ c ∈ "²²²²²²²²²²".data, decimalDigitChar c = true) := by
  refine ⟨by decide, by decide, by decide⟩

/-- C4 amended: constructing a `Phone` succeeds exactly on strings of
exactly 10 characters each of which Python's `str.isdigit` counts as a
digit (the decimal digits plus e.g. superscript digits); on every other
string it fails with the `ValueError` of line 37 of `main8.py`. -/
theorem phone_construction_characterization (s : String) :
    (Phone.make s = .ok ⟨s⟩
      ∨ Phone.make s
          = .error (.valueError "Phone number must contain exactly 10 digits."))
    ∧ (Phone.make s = .ok ⟨s⟩
        ↔ (s.length = 10 ∧ ∀ c ∈ s.data, pyIsDigitChar c = true)) := by
  constructor
  · unfold Phone.make
    by_cases hv : Phone.validate s = true
    · exact Or.inl (by rw [if_pos hv])
    · exact Or.inr (by rw [if_neg hv])
  · constructor
    · intro h
      exact (phone_validate_iff s).mp (phone_make_ok h).2
    · intro h
      unfold Phone.make
      rw [if_pos ((phone_validate_iff s).mpr h)]

/-- C6: `edit_phone` with an `old` number matching none of the record's
phones exits by raising the "Old phone not found." `ValueError` (the
spec's NotFoundError), with the record's exit state — in particular its
phone list, same phones in the same order — exactly the entry state. -/
theorem edit_phone_missing_old_fails_unchanged (r : Record)
    (old new : String) (h : ∀ p ∈ r.phones, p.value ≠ old) :
    r.edit_phone old new
      = (.error (.valueError "Old phone not found."), r) := by
  have hf : r.find_phone old = none := by
    unfold Record.find_phone
    apply List.find?_eq_none.mpr
    intro p hp
    simp only [beq_iff_eq]
    exact fun hc => h p hp hc
  unfold Record.edit_phone
  rw [hf]

/-- Witness for the C6 theorem at a concrete record and numbers. -/
theorem edit_phone_missing_old_fails_unchanged_witness :
    Record.edit_phone ⟨"Ann", [⟨"0123456789"⟩], none⟩ "9999999999"
        "0000000000"
      = (.error (.valueError "Old phone not found."),
         ⟨"Ann", [⟨"0123456789"⟩], none⟩) :=
  edit_phone_missing_old_fails_unchanged ⟨"Ann", [⟨"0123456789"⟩], none⟩
    "9999999999" "0000000000" (by decide)

/-- C7: `add_record` stores a record under its name, and a second
`add_record` with a record of the same name makes the book map that name
to exactly the second record — so nothing of the first record (in
particular none of its phones) survives. -/
theorem add_record_overwrites_by_name (book : AddressBook)
    (r1 r2 : Record) (h : r2.name = r1.name) :
    (book.add_record r1).find r1.name = some r1
    ∧ ((book.add_record r1).add_record r2).find r1.name = some r2 := by
  constructor
  · show ((dictInsert book.data r1.name r1).find?
      (fun kv => kv.1 == r1.name)).map Prod.snd = some r1
    rw [find?_dictInsert]
    rfl
  · show ((dictInsert (dictInsert book.data r1.name r1) r2.name r2).find?
      (fun kv => kv.1 == r1.name)).map Prod.snd = some r2
    rw [h, find?_dictInsert]
    rfl

/-- Witness for the C7 theorem: two same-named records with different
phones; after the two calls the book holds exactly the second. -/
theorem add_record_overwrites_by_name_witness :
    (AddressBook.find
      (AddressBook.add_record ⟨[]⟩ ⟨"Bob", [⟨"0000000000"⟩], none⟩) "Bob"
      = some ⟨"Bob", [⟨"0000000000"⟩], none⟩)
    ∧ (AddressBook.find
        (AddressBook.add_record
          (AddressBook.add_record ⟨[]⟩ ⟨"Bob", [⟨"0000000000"⟩], none⟩)
          ⟨"Bob", [⟨"1111111111"⟩], none⟩) "Bob"
        = some ⟨"Bob", [⟨"1111111111"⟩], none⟩) :=
  add_record_overwrites_by_name ⟨[]⟩ ⟨"Bob", [⟨"0000000000"⟩], none⟩
    ⟨"Bob", [⟨"1111111111"⟩], none⟩ rfl

/-- Records reachable through the public `Record` API of `main8.py`:
freshly constructed, or obtained from a reachable record by a successful
mutating call. -/
inductive ReachedRecord : Record → Prop where
  | init (name : String) : ReachedRecord (Record.new name)
  | addPhone (r r2 : Record) (s : String) :
      ReachedRecord r → r.add_phone s = .ok r2 → ReachedRecord r2
  | removePhone (r r2 : Record) (s : String) :
      ReachedRecord r → r.remove_phone s = .ok r2 → ReachedRecord r2
  | editPhone (r r2 : Record) (old new : String) :
      ReachedRecord r → r.edit_phone old new = (.ok (), r2) →
      ReachedRecord r2
  | addBirthday (r r2 : Record) (s : String) :
      ReachedRecord r → r.add_birthday s = .ok r2 → ReachedRecord r2

/-- C8 counterexample: starting from a fresh record, one successful
`add_phone` call stores a phone whose value is ten SUPERSCRIPT TWO
characters — not decimal digits.  So the claimed invariant "every
reachable phone value is a string of exactly 10 decimal digits" fails,
because the validating constructor itself accepts non-decimal digits. -/
theorem record_reachable_nondecimal_phone_counterexample :
    (Record.new "Ann").add_phone "²²²²²²²²²²"
      = .ok ⟨"Ann", [⟨"²²²²²²²²²²"⟩], none⟩
    ∧ ¬(∀ c ∈ "²²²²²²²²²²".data, decimalDigitChar c = true) := by
  refine ⟨by decide, by decide⟩

/-- C8 amended: every phone reachable in a record built through the API
is a string of exactly 10 characters that Python's `str.isdigit` counts
as digits; the invariant is established by the `Phone` constructor and
preserved by `add_phone`, `remove_phone`, `edit_phone` and
`add_birthday`. -/
theorem record_phones_invariant (r : Record) (h : ReachedRecord r) :
    ∀ p ∈ r.phones,
      p.value.length = 10 ∧ ∀ c ∈ p.value.data, pyIsDigitChar c = true := by
  induction h with
  | init name =>
    intro p hp
    simp [Record.new] at hp
  | addPhone r r2 s hr hok ih =>
    unfold Record.add_phone at hok
    cases hm : Phone.make s with
    | error e => rw [hm] at hok; cases hok
    | ok p =>
      rw [hm] at hok
      injection hok with hok
      intro q hq
      rw [← hok] at hq
      simp only [List.mem_append, List.mem_singleton] at hq
      cases hq with
      | inl hq => exact ih q hq
      | inr hq =>
        obtain ⟨hval, hvd⟩ := phone_make_ok hm
        rw [hq, hval]
        exact (phone_validate_iff s).mp hvd
  | removePhone r r2 s hr hok ih =>
    unfold Record.remove_phone at hok
    cases hm : r.find_phone s with
    | none => rw [hm] at hok; cases hok
    | some p =>
      rw [hm] at hok
      injection hok with hok
      intro q hq
      rw [← hok] at hq
      exact ih q (List.mem_of_mem_erase hq)
  | editPhone r r2 old new hr hok ih =>
    unfold Record.edit_phone at hok
    cases hm : r.find_phone old with
    | none =>
      simp only [hm] at hok
      rw [Prod.mk.injEq] at hok
      cases hok.1
    | some p =>
      simp only [hm] at hok
      cases hn : Phone.make new with
      | error e =>
        simp only [hn] at hok
        rw [Prod.mk.injEq] at hok
        cases hok.1
      | ok np =>
        simp only [hn] at hok
        rw [Prod.mk.injEq] at hok
        intro q hq
        rw [← hok.2] at hq
        cases List.mem_or_eq_of_mem_set hq with
        | inl hq => exact ih q hq
        | inr hq =>
          obtain ⟨hval, hvd⟩ := phone_make_ok hn
          rw [hq, hval]
          exact (phone_validate_iff new).mp hvd
  | addBirthday r r2 s hr hok ih =>
    unfold Record.add_birthday at hok
    cases hm : Birthday.make s with
    | error e => rw [hm] at hok; cases hok
    | ok b =>
      rw [hm] at hok
      injection hok with hok
      intro q hq
      rw [← hok] at hq
      exact ih q hq

/-- Witness for the C8 invariant theorem on a concretely reached
record, instantiated at its stored phone and one of its characters. -/
theorem record_phones_invariant_witness :
    (Phone.value ⟨"0123456789"⟩).length = 10
    ∧ pyIsDigitChar '7' = true := by
  have h := record_phones_invariant ⟨"Ann", [⟨"0123456789"⟩], none⟩
    (ReachedRecord.addPhone (Record.new "Ann") _ "0123456789"
      (ReachedRecord.init "Ann") (by decide))
    ⟨"0123456789"⟩ (by decide)
  exact ⟨h.1, h.2 '7' (by decide)⟩

/-- Soundness of the day-group tokenizer: a successful parse consumed a
group the `%d` regex alternation matches, with its `int()` value. -/
lemma parseDayTok_sound {cs rest : List Char} {v : Nat}
    (h : parseDayTok cs = some (v, rest)) :
    ∃ g, cs = g ++ rest ∧ dayGroupMatch g = true ∧ digitsVal g = v := by
  match cs with
  | [] => simp [parseDayTok] at h
  | [c1] =>
    simp only [parseDayTok] at h
    split_ifs at h with h1
    rw [Option.some.injEq, Prod.mk.injEq] at h
    obtain ⟨hv, hr⟩ := h
    refine ⟨[c1], by rw [← hr]; rfl, ?_, ?_⟩
    · simp only [dayGroupMatch]; exact h1
    · rw [← hv]; simp [digitsVal]
  | c1 :: c2 :: rest0 =>
    simp only [parseDayTok] at h
    split_ifs at h with h1 h2 h3 h4
    · rw [Option.some.injEq, Prod.mk.injEq] at h
      obtain ⟨hv, hr⟩ := h
      refine ⟨[c1, c2], by rw [← hr]; rfl, ?_, ?_⟩
      · simp only [dayGroupMatch]; rw [h1]; simp
      · rw [← hv]; simp [digitsVal]
    · rw [Option.some.injEq, Prod.mk.injEq] at h
      obtain ⟨hv, hr⟩ := h
      refine ⟨[c1, c2], by rw [← hr]; rfl, ?_, ?_⟩
      · simp only [dayGroupMatch]; rw [h2]; simp
      · rw [← hv]; simp [digitsVal]
    · rw [Option.some.injEq, Prod.mk.injEq] at h
      obtain ⟨hv, hr⟩ := h
      refine ⟨[c1, c2], by rw [← hr]; rfl, ?_, ?_⟩
      · simp only [dayGroupMatch]; rw [h3]; simp
      · rw [← hv]; simp [digitsVal]
    · rw [Option.some.injEq, Prod.mk.injEq] at h
      obtain ⟨hv, hr⟩ := h
      refine ⟨[c1], by rw [← hr]; rfl, ?_, ?_⟩
      · simp only [dayGroupMatch]; exact h4
      · rw [← hv]; simp [digitsVal]

/-- An `&&` with a false right factor cannot be true (used to discharge
the two-character regex alternatives on a dot). -/
lemma not_and_right_false {a b : Bool} (hb : b = false) :
    ¬((a && b) = true) := by
  intro hc
  rw [Bool.and_eq_true, hb] at hc
  cases hc.2

/-- Completeness of the day-group tokenizer on a matching group followed
by a dot (or the end of input). -/
lemma parseDayTok_complete (g rest : List Char)
    (hm : dayGroupMatch g = true)
    (hrest : rest = [] ∨ ∃ r2, rest = '.' :: r2) :
    parseDayTok (g ++ rest) = some (digitsVal g, rest) := by
  cases g with
  | nil => simp [dayGroupMatch] at hm
  | cons c1 t1 =>
    cases t1 with
    | nil =>
      have h1 : asciiDigit19 c1 = true := by
        simpa [dayGroupMatch] using hm
      cases hrest with
      | inl hr =>
        subst hr
        simp only [List.cons_append, List.nil_append, List.append_nil,
          parseDayTok]
        rw [if_pos h1]
        simp [digitsVal]
      | inr hr =>
        obtain ⟨r2, hr⟩ := hr
        subst hr
        simp only [List.cons_append, List.nil_append, parseDayTok]
        rw [if_neg (not_and_right_false (by decide)),
          if_neg (not_and_right_false (by decide)),
          if_neg (not_and_right_false (by decide)),
          if_pos h1]
        simp [digitsVal]
    | cons c2 t2 =>
      cases t2 with
      | cons c3 t3 => simp [dayGroupMatch] at hm
      | nil =>
        simp only [dayGroupMatch] at hm
        simp only [List.cons_append, List.nil_append, parseDayTok]
        by_cases hA : ((c1 == '3') && (c2 == '0' || c2 == '1')) = true
        · rw [if_pos hA]; simp [digitsVal]
        · rw [if_neg hA]
          by_cases hB : ((c1 == '1' || c1 == '2') && isNdChar c2) = true
          · rw [if_pos hB]; simp [digitsVal]
          · rw [if_neg hB]
            have hC : ((c1 == '0') && asciiDigit19 c2) = true := by
              rw [Bool.or_eq_true, Bool.or_eq_true] at hm
              rcases hm with (hA2 | hB2) | hC2
              · exact absurd hA2 hA
              · exact absurd hB2 hB
              · exact hC2
            rw [if_pos hC]
            simp [digitsVal]

/-- Soundness of the month-group tokenizer. -/
lemma parseMonthTok_sound {cs rest : List Char} {v : Nat}
    (h : parseMonthTok cs = some (v, rest)) :
    ∃ g, cs = g ++ rest ∧ monthGroupMatch g = true ∧ digitsVal g = v := by
  match cs with
  | [] => simp [parseMonthTok] at h
  | [c1] =>
    simp only [parseMonthTok] at h
    split_ifs at h with h1
    rw [Option.some.injEq, Prod.mk.injEq] at h
    obtain ⟨hv, hr⟩ := h
    refine ⟨[c1], by rw [← hr]; rfl, ?_, ?_⟩
    · simp only [monthGroupMatch]; exact h1
    · rw [← hv]; simp [digitsVal]
  | c1 :: c2 :: rest0 =>
    simp only [parseMonthTok] at h
    split_ifs at h with h1 h2 h3
    · rw [Option.some.injEq, Prod.mk.injEq] at h
      obtain ⟨hv, hr⟩ := h
      refine ⟨[c1, c2], by rw [← hr]; rfl, ?_, ?_⟩
      · simp only [monthGroupMatch]; rw [h1]; simp
      · rw [← hv]; simp [digitsVal]
    · rw [Option.some.injEq, Prod.mk.injEq] at h
      obtain ⟨hv, hr⟩ := h
      refine ⟨[c1, c2], by rw [← hr]; rfl, ?_, ?_⟩
      · simp only [monthGroupMatch]; rw [h2]; simp
      · rw [← hv]; simp [digitsVal]
    · rw [Option.some.injEq, Prod.mk.injEq] at h
      obtain ⟨hv, hr⟩ := h
      refine ⟨[c1], by rw [← hr]; rfl, ?_, ?_⟩
      · simp only [monthGroupMatch]; exact h3
      · rw [← hv]; simp [digitsVal]

/-- Completeness of the month-group tokenizer. -/
lemma parseMonthTok_complete (g rest : List Char)
    (hm : monthGroupMatch g = true)
    (hrest : rest = [] ∨ ∃ r2, rest = '.' :: r2) :
    parseMonthTok (g ++ rest) = some (digitsVal g, rest) := by
  cases g with
  | nil => simp [monthGroupMatch] at hm
  | cons c1 t1 =>
    cases t1 with
    | nil =>
      have h1 : asciiDigit19 c1 = true := by
        simpa [monthGroupMatch] using hm
      cases hrest with
      | inl hr =>
        subst hr
        simp only [List.cons_append, List.nil_append, List.append_nil,
          parseMonthTok]
        rw [if_pos h1]
        simp [digitsVal]
      | inr hr =>
        obtain ⟨r2, hr⟩ := hr
        subst hr
        simp only [List.cons_append, List.nil_append, parseMonthTok]
        rw [if_neg (not_and_right_false (by decide)),
          if_neg (not_and_right_false (by decide)),
          if_pos h1]
        simp [digitsVal]
    | cons c2 t2 =>
      cases t2 with
      | cons c3 t3 => simp [monthGroupMatch] at hm
      | nil =>
        simp only [monthGroupMatch] at hm
        simp only [List.cons_append, List.nil_append, parseMonthTok]
        by_cases hA : ((c1 == '1') && (48 ≤ c2.toNat && c2.toNat ≤ 50))
            = true
        · rw [if_pos hA]; simp [digitsVal]
        · rw [if_neg hA]
          have hB : ((c1 == '0') && asciiDigit19 c2) = true := by
            rw [Bool.or_eq_true] at hm
            rcases hm with hA2 | hB2
            · exact absurd hA2 hA
            · exact hB2
          rw [if_pos hB]
          simp [digitsVal]

/-- Soundness of the year group tokenizer: exactly four decimal digits
consumed. -/
lemma parseYear4_sound {cs rest : List Char} {v : Nat}
    (h : parseYear4 cs = some (v, rest)) :
    ∃ g, cs = g ++ rest ∧ yearGroupMatch g = true ∧ digitsVal g = v := by
  match cs with
  | [] => simp [parseYear4] at h
  | [c1] => simp [parseYear4] at h
  | [c1, c2] => simp [parseYear4] at h
  | [c1, c2, c3] => simp [parseYear4] at h
  | c1 :: c2 :: c3 :: c4 :: rest0 =>
    simp only [parseYear4] at h
    split_ifs at h with h1
    rw [Option.some.injEq, Prod.mk.injEq] at h
    obtain ⟨hv, hr⟩ := h
    refine ⟨[c1, c2, c3, c4], by rw [← hr]; rfl, ?_, ?_⟩
    · simp only [yearGroupMatch]; exact h1
    · rw [← hv]; simp [digitsVal]

/-- Completeness of the year group tokenizer. -/
lemma parseYear4_complete (g rest : List Char)
    (hm : yearGroupMatch g = true) :
    parseYear4 (g ++ rest) = some (digitsVal g, rest) := by
  cases g with
  | nil => simp [yearGroupMatch] at hm
  | cons c1 t1 =>
  cases t1 with
  | nil => simp [yearGroupMatch] at hm
  | cons c2 t2 =>
  cases t2 with
  | nil => simp [yearGroupMatch] at hm
  | cons c3 t3 =>
  cases t3 with
  | nil => simp [yearGroupMatch] at hm
  | cons c4 t4 =>
  cases t4 with
  | cons c5 t5 => simp [yearGroupMatch] at hm
  | nil =>
    simp only [yearGroupMatch] at hm
    simp only [List.cons_append, List.nil_append, parseYear4]
    rw [if_pos hm]
    simp [digitsVal]

/-- `dateValid` in propositional form. -/
lemma dateValid_iff {y m d : Nat} :
    dateValid y m d = true ↔
      (1 ≤ y ∧ y ≤ 9999 ∧ 1 ≤ m ∧ m ≤ 12 ∧ 1 ≤ d ∧ d ≤ daysInMonth y m) := by
  unfold dateValid
  rw [Bool.and_eq_true, Bool.and_eq_true, Bool.and_eq_true, Bool.and_eq_true,
    Bool.and_eq_true]
  simp only [decide_eq_true_eq]
  tauto

/-- No month has more than 31 days. -/
lemma daysInMonth_le_31 (y m : Nat) : daysInMonth y m ≤ 31 := by
  unfold daysInMonth
  split_ifs <;> omega

/-- Soundness of the `%d.%m.%Y` regex match: a successful match
decomposes the string into a day group, a dot, a month group, a dot and
a four-digit year group, each matching its regex alternation, with the
returned `int()` values. -/
lemma regexMatchDMY_sound {cs : List Char} {d m y : Nat}
    (h : regexMatchDMY cs = some (d, m, y)) :
    ∃ dcs mcs ycs, cs = dcs ++ '.' :: (mcs ++ '.' :: ycs)
      ∧ dayGroupMatch dcs = true ∧ digitsVal dcs = d
      ∧ monthGroupMatch mcs = true ∧ digitsVal mcs = m
      ∧ yearGroupMatch ycs = true ∧ digitsVal ycs = y := by
  unfold regexMatchDMY at h
  cases h1 : parseDayTok cs with
  | none => rw [h1, Option.none_bind] at h; cases h
  | some dres =>
    obtain ⟨d0, cs1⟩ := dres
    simp only [h1, Option.some_bind] at h
    cases h2 : expectDot cs1 with
    | none => rw [h2, Option.none_bind] at h; cases h
    | some cs2 =>
      simp only [h2, Option.some_bind] at h
      cases h3 : parseMonthTok cs2 with
      | none => rw [h3, Option.none_bind] at h; cases h
      | some mres =>
        obtain ⟨m0, cs3⟩ := mres
        simp only [h3, Option.some_bind] at h
        cases h4 : expectDot cs3 with
        | none => rw [h4, Option.none_bind] at h; cases h
        | some cs4 =>
          simp only [h4, Option.some_bind] at h
          cases h5 : parseYear4 cs4 with
          | none => rw [h5, Option.none_bind] at h; cases h
          | some yres =>
            obtain ⟨y0, rest⟩ := yres
            simp only [h5, Option.some_bind] at h
            by_cases h6 : rest.isEmpty = true
            on_goal 2 => rw [if_neg h6] at h; cases h
            rw [if_pos h6, Option.some.injEq, Prod.mk.injEq,
              Prod.mk.injEq] at h
            obtain ⟨hd0, hm0, hy0⟩ := h
            have hrest : rest = [] := by
              cases rest with
              | nil => rfl
              | cons a b => simp at h6
            obtain ⟨dcs, hcs, hdm, hdval⟩ := parseDayTok_sound h1
            obtain ⟨mcs, hcs2, hmm, hmval⟩ := parseMonthTok_sound h3
            obtain ⟨ycs, hcs4, hym, hyval⟩ := parseYear4_sound h5
            have hdot1 : cs1 = '.' :: cs2 := by
              cases cs1 with
              | nil => simp [expectDot] at h2
              | cons a b =>
                simp only [expectDot] at h2
                by_cases ha : a = '.'
                · rw [if_pos ha] at h2
                  injection h2 with h2
                  rw [ha, h2]
                · rw [if_neg ha] at h2; cases h2
            have hdot2 : cs3 = '.' :: cs4 := by
              cases cs3 with
              | nil => simp [expectDot] at h4
              | cons a b =>
                simp only [expectDot] at h4
                by_cases ha : a = '.'
                · rw [if_pos ha] at h4
                  injection h4 with h4
                  rw [ha, h4]
                · rw [if_neg ha] at h4; cases h4
            refine ⟨dcs, mcs, ycs, ?_, hdm, by omega, hmm, by omega,
              hym, by omega⟩
            rw [hcs, hdot1, hcs2, hdot2, hcs4, hrest, List.append_nil]

/-- Completeness of the `%d.%m.%Y` regex match on a decomposed
string. -/
lemma regexMatchDMY_complete (dcs mcs ycs : List Char)
    (hd : dayGroupMatch dcs = true) (hm : monthGroupMatch mcs = true)
    (hy : yearGroupMatch ycs = true) :
    regexMatchDMY (dcs ++ '.' :: (mcs ++ '.' :: ycs))
      = some (digitsVal dcs, digitsVal mcs, digitsVal ycs) := by
  have hpd : parseDayTok (dcs ++ '.' :: (mcs ++ '.' :: ycs))
      = some (digitsVal dcs, '.' :: (mcs ++ '.' :: ycs)) :=
    parseDayTok_complete dcs _ hd (Or.inr ⟨_, rfl⟩)
  have hpm : parseMonthTok (mcs ++ '.' :: ycs)
      = some (digitsVal mcs, '.' :: ycs) :=
    parseMonthTok_complete mcs _ hm (Or.inr ⟨_, rfl⟩)
  have hpy : parseYear4 (ycs ++ []) = some (digitsVal ycs, []) :=
    parseYear4_complete ycs [] hy
  rw [List.append_nil] at hpy
  have he1 : expectDot ('.' :: (mcs ++ '.' :: ycs))
      = some (mcs ++ '.' :: ycs) := by simp [expectDot]
  have he2 : expectDot ('.' :: ycs) = some ycs := by simp [expectDot]
  unfold regexMatchDMY
  simp only [hpd, Option.some_bind, he1, hpm, he2, hpy]
  rfl

/-- Characterization of the strings accepted by
`strptime(s, "%d.%m.%Y")`: exactly the lenient day-month-year
decompositions. -/
lemma strptimeDMY_isSome_iff (s : String) :
    (strptimeDMY s).isSome = true ↔ lenientDMYRep s := by
  constructor
  · intro h
    unfold strptimeDMY at h
    cases hr : regexMatchDMY s.data with
    | none => rw [hr, Option.none_bind] at h; cases h
    | some t =>
      obtain ⟨d, m, y⟩ := t
      simp only [hr, Option.some_bind] at h
      by_cases hv : dateValid y m d = true
      on_goal 2 => rw [if_neg hv] at h; cases h
      obtain ⟨dcs, mcs, ycs, hcs, hdm, hdval, hmm, hmval, hym, hyval⟩ :=
        regexMatchDMY_sound hr
      refine ⟨dcs, mcs, ycs, hcs, hdm, hmm, hym, ?_⟩
      rw [hdval, hmval, hyval]
      exact hv
  · rintro ⟨dcs, mcs, ycs, hcs, hdm, hmm, hym, hv⟩
    have hreg := regexMatchDMY_complete dcs mcs ycs hdm hmm hym
    unfold strptimeDMY
    rw [hcs]
    simp only [hreg, Option.some_bind]
    rw [if_pos hv]
    rfl

/-- C5 counterexample: `"5.6.1990"` does not have the two-digit-day,
two-digit-month `DD.MM.YYYY` shape, yet the `Birthday` constructor
accepts it, because `strptime`'s `%d` and `%m` also match single
digits.  The claim that construction fails for every string not
matching `DD.MM.YYYY` is therefore false. -/
theorem birthday_accepts_single_digit_counterexample :
    Birthday.make "5.6.1990" = .ok ⟨"5.6.1990"⟩
    ∧ specStrictDDMMYYYY "5.6.1990" = false := by
  refine ⟨by decide, by decide⟩

/-- C5 amended: constructing a `Birthday` succeeds exactly on strings of
the form day `.` month `.` year where the day and month groups have one
or two digits, the year group exactly four, and the three values denote
a real calendar date (years 1..9999); on every other string it fails
with the `ValueError` of line 53 of `main8.py`. -/
theorem birthday_construction_characterization (s : String) :
    (Birthday.make s = .ok ⟨s⟩
      ∨ Birthday.make s
          = .error (.valueError "Invalid date format. Use DD.MM.YYYY"))
    ∧ (Birthday.make s = .ok ⟨s⟩ ↔ lenientDMYRep s) := by
  constructor
  · unfold Birthday.make
    by_cases hv : (strptimeDMY s).isSome = true
    · exact Or.inl (by rw [if_pos hv])
    · exact Or.inr (by rw [if_neg hv])
  · constructor
    · intro h
      apply (strptimeDMY_isSome_iff s).mp
      by_contra hv
      unfold Birthday.make at h
      rw [if_neg hv] at h
      cases h
    · intro h
      unfold Birthday.make
      rw [if_pos ((strptimeDMY_isSome_iff s).mpr h)]

/-- Characterization of a loop iteration that appends an entry: the
record has a parseable stored birthday whose anchoring succeeded and
landed in the 7-day window, and the entry carries the record's name and
the weekend-shifted greeting ordinal. -/
lemma recordEntry_ok_some_iff {today : PyDate} {r : Record}
    {e : String × Nat} :
    recordEntry today r = .ok (some e) ↔
      ∃ bObj bd b, r.birthday = some bObj
        ∧ strptimeDMY bObj.value = some bd
        ∧ anchorBirthday today bd = some b
        ∧ toOrdinal today ≤ toOrdinal b
        ∧ toOrdinal b ≤ toOrdinal today + 6
        ∧ e = (r.name, shiftWeekend (toOrdinal b)) := by
  constructor
  · intro h
    unfold recordEntry at h
    cases hb : r.birthday with
    | none => simp only [hb] at h; cases h
    | some bObj =>
      simp only [hb] at h
      cases hs : strptimeDMY bObj.value with
      | none => simp only [hs] at h; cases h
      | some bd =>
        simp only [hs] at h
        cases ha : anchorBirthday today bd with
        | none => simp only [ha] at h; cases h
        | some b =>
          simp only [ha] at h
          by_cases hw : (toOrdinal today ≤ toOrdinal b
              && toOrdinal b ≤ toOrdinal today + 6) = true
          · rw [if_pos hw] at h
            injection h with h
            injection h with h
            rw [Bool.and_eq_true, decide_eq_true_eq, decide_eq_true_eq]
              at hw
            exact ⟨bObj, bd, b, rfl, hs, ha, hw.1, hw.2, h.symm⟩
          · rw [if_neg hw] at h
            injection h with h
            cases h
  · rintro ⟨bObj, bd, b, hb, hs, ha, hw1, hw2, he⟩
    unfold recordEntry
    simp only [hb, hs, ha]
    rw [if_pos]
    · rw [he]
    · rw [Bool.and_eq_true, decide_eq_true_eq, decide_eq_true_eq]
      exact ⟨hw1, hw2⟩

/-- Membership in a successfully collected entry list comes exactly from
the records whose iteration appends that entry. -/
lemma collectEntries_mem {today : PyDate} (rs : List Record) :
    ∀ L, collectEntries today rs = some L →
      ∀ e, (e ∈ L ↔ ∃ r, r ∈ rs ∧ recordEntry today r = .ok (some e)) := by
  induction rs with
  | nil =>
    intro L h e
    injection h with h
    rw [← h]
    simp
  | cons r rs ih =>
    intro L h e
    unfold collectEntries at h
    cases hre : recordEntry today r with
    | error u => simp only [hre] at h; cases h
    | ok oe =>
      cases oe with
      | none =>
        simp only [hre] at h
        rw [ih L h e]
        constructor
        · rintro ⟨r2, hr2, he2⟩
          exact ⟨r2, List.mem_cons_of_mem r hr2, he2⟩
        · rintro ⟨r2, hr2, he2⟩
          rcases List.mem_cons.mp hr2 with hq | hq
          · subst hq
            rw [hre] at he2
            injection he2 with he2
            cases he2
          · exact ⟨r2, hq, he2⟩
      | some e0 =>
        simp only [hre] at h
        cases hc : collectEntries today rs with
        | none => simp only [hc] at h; cases h
        | some L0 =>
          simp only [hc] at h
          injection h with h
          rw [← h]
          simp only [List.mem_cons]
          constructor
          · rintro (he | he)
            · exact ⟨r, Or.inl rfl, by rw [hre, he]⟩
            · obtain ⟨r2, hr2, he2⟩ := (ih L0 hc e).mp he
              exact ⟨r2, Or.inr hr2, he2⟩
          · rintro ⟨r2, hr2, he2⟩
            rcases hr2 with hq | hq
            · subst hq
              rw [hre] at he2
              injection he2 with he2
              injection he2 with he2
              exact Or.inl he2.symm
            · exact Or.inr ((ih L0 hc e).mpr ⟨r2, hq, he2⟩)

/-- The loop collects a list exactly when no iteration raises. -/
lemma collectEntries_isSome {today : PyDate} (rs : List Record)
    (h : ∀ r ∈ rs, recordEntry today r ≠ .error ()) :
    ∃ L, collectEntries today rs = some L := by
  induction rs with
  | nil => exact ⟨[], rfl⟩
  | cons r rs ih =>
    obtain ⟨L, hL⟩ := ih (fun r2 hr2 => h r2 (List.mem_cons_of_mem r hr2))
    cases hre : recordEntry today r with
    | error u =>
      cases u
      exact absurd hre (h r (List.mem_cons_self r rs))
    | ok oe =>
      cases oe with
      | none =>
        refine ⟨L, ?_⟩
        unfold collectEntries
        simp only [hre]
        exact hL
      | some e =>
        refine ⟨e :: L, ?_⟩
        unfold collectEntries
        simp only [hre, hL]

/-- Destructor for a successful `get_upcoming_birthdays` run: the window
fits below `date.max`, the loop collected a list, and the result is its
stable sort by greeting date. -/
lemma get_upcoming_eq_some {book : AddressBook} {today : PyDate}
    {l : List (String × Nat)}
    (h : book.get_upcoming_birthdays today = some l) :
    toOrdinal today + 6 ≤ pyDateMaxOrdinal
    ∧ ∃ L, collectEntries today book.values = some L
        ∧ l = List.insertionSort (fun a b => a.2 ≤ b.2) L := by
  unfold AddressBook.get_upcoming_birthdays at h
  by_cases ho : pyDateMaxOrdinal < toOrdinal today + 6
  · rw [if_pos ho] at h; cases h
  · rw [if_neg ho] at h
    refine ⟨by omega, ?_⟩
    cases hc : collectEntries today book.values with
    | none => simp only [hc] at h; cases h
    | some L =>
      simp only [hc] at h
      injection h with h
      exact ⟨L, rfl, h.symm⟩

/-- C1: on a successful run, a record with a (parseable) birthday
contributes an entry if and only if its birthday date, re-anchored to
the current year — or to the next year when the current-year anchoring
falls before today — lies in the inclusive window
`[today, today + 6 days]`.  (The record names are assumed distinct, as
they are in any book built through `add_record`, which keys records by
name.) -/
theorem upcoming_inclusion_iff_window (book : AddressBook) (today : PyDate)
    (l : List (String × Nat))
    (hres : book.get_upcoming_birthdays today = some l)
    (hnd : (book.values.map Record.name).Nodup)
    (rec : Record) (hrec : rec ∈ book.values)
    (bObj : Birthday) (hb : rec.birthday = some bObj)
    (bd : PyDate) (hbd : strptimeDMY bObj.value = some bd) :
    (∃ g, (rec.name, g) ∈ l) ↔
      (∃ b, anchorBirthday today bd = some b
        ∧ toOrdinal today ≤ toOrdinal b
        ∧ toOrdinal b ≤ toOrdinal today + 6) := by
  obtain ⟨hord, L, hL, hsort⟩ := get_upcoming_eq_some hres
  have hmemL : ∀ e : String × Nat, e ∈ l ↔ e ∈ L := by
    intro e
    rw [hsort]
    exact (List.perm_insertionSort _ L).mem_iff
  constructor
  · rintro ⟨g, hg⟩
    obtain ⟨r2, hr2, he2⟩ :=
      (collectEntries_mem book.values L hL (rec.name, g)).mp ((hmemL _).mp hg)
    obtain ⟨bObj2, bd2, b2, hb2, hs2, ha2, hw1, hw2, he⟩ :=
      recordEntry_ok_some_iff.mp he2
    rw [Prod.mk.injEq] at he
    have hr2rec : r2 = rec :=
      List.inj_on_of_nodup_map hnd hr2 hrec he.1.symm
    subst hr2rec
    rw [hb] at hb2
    injection hb2 with hb2
    rw [← hb2] at hs2
    rw [hbd] at hs2
    injection hs2 with hs2
    rw [← hs2] at ha2
    exact ⟨b2, ha2, hw1, hw2⟩
  · rintro ⟨b, ha, hw1, hw2⟩
    have hentry : recordEntry today rec
        = .ok (some (rec.name, shiftWeekend (toOrdinal b))) :=
      recordEntry_ok_some_iff.mpr ⟨bObj, bd, b, hb, hbd, ha, hw1, hw2, rfl⟩
    have hmem : (rec.name, shiftWeekend (toOrdinal b)) ∈ L :=
      (collectEntries_mem book.values L hL _).mpr ⟨rec, hrec, hentry⟩
    exact ⟨shiftWeekend (toOrdinal b), (hmemL _).mpr hmem⟩

/-- Witness for the C1 theorem: the spec's own scenario — today
2024-06-08, Alice's birthday 10.06.1990, anchored to Monday 2024-06-10
inside the window, so Alice is reported (with unshifted greeting). -/
theorem upcoming_inclusion_iff_window_witness :
    (∃ g, ("Alice", g) ∈ [("Alice", toOrdinal ⟨2024, 6, 10⟩)]) ↔
      (∃ b, anchorBirthday ⟨2024, 6, 8⟩ ⟨1990, 6, 10⟩ = some b
        ∧ toOrdinal ⟨2024, 6, 8⟩ ≤ toOrdinal b
        ∧ toOrdinal b ≤ toOrdinal ⟨2024, 6, 8⟩ + 6) :=
  upcoming_inclusion_iff_window
    ⟨[("Alice", ⟨"Alice", [], some ⟨"10.06.1990"⟩⟩)]⟩ ⟨2024, 6, 8⟩
    [("Alice", toOrdinal ⟨2024, 6, 10⟩)] (by decide) (by decide)
    ⟨"Alice", [], some ⟨"10.06.1990"⟩⟩ (by decide)
    ⟨"10.06.1990"⟩ (by decide) ⟨1990, 6, 10⟩ (by decide)

/-- C2: an included record whose anchored birthday falls on a Saturday
is reported with that date plus 2 days, on a Sunday plus 1 day, and on
any other weekday unshifted; the window test of the hypotheses is on
the unshifted anchored date itself. -/
theorem upcoming_weekend_shift (book : AddressBook) (today : PyDate)
    (l : List (String × Nat))
    (hres : book.get_upcoming_birthdays today = some l)
    (rec : Record) (hrec : rec ∈ book.values)
    (bObj : Birthday) (hb : rec.birthday = some bObj)
    (bd : PyDate) (hbd : strptimeDMY bObj.value = some bd)
    (b : PyDate) (ha : anchorBirthday today bd = some b)
    (hw1 : toOrdinal today ≤ toOrdinal b)
    (hw2 : toOrdinal b ≤ toOrdinal today + 6) :
    (weekdayOfOrdinal (toOrdinal b) = 5 →
      (rec.name, toOrdinal b + 2) ∈ l)
    ∧ (weekdayOfOrdinal (toOrdinal b) = 6 →
        (rec.name, toOrdinal b + 1) ∈ l)
    ∧ (weekdayOfOrdinal (toOrdinal b) ≠ 5 →
        weekdayOfOrdinal (toOrdinal b) ≠ 6 →
        (rec.name, toOrdinal b) ∈ l) := by
  obtain ⟨hord, L, hL, hsort⟩ := get_upcoming_eq_some hres
  have hentry : recordEntry today rec
      = .ok (some (rec.name, shiftWeekend (toOrdinal b))) :=
    recordEntry_ok_some_iff.mpr ⟨bObj, bd, b, hb, hbd, ha, hw1, hw2, rfl⟩
  have hmem : (rec.name, shiftWeekend (toOrdinal b)) ∈ l := by
    rw [hsort]
    exact (List.perm_insertionSort _ L).mem_iff.mpr
      ((collectEntries_mem book.values L hL _).mpr ⟨rec, hrec, hentry⟩)
  refine ⟨?_, ?_, ?_⟩
  · intro hwd
    have : shiftWeekend (toOrdinal b) = toOrdinal b + 2 := by
      unfold shiftWeekend
      rw [hwd]
      simp
    rwa [this] at hmem
  · intro hwd
    have : shiftWeekend (toOrdinal b) = toOrdinal b + 1 := by
      unfold shiftWeekend
      rw [hwd]
      simp
    rwa [this] at hmem
  · intro hwd5 hwd6
    have : shiftWeekend (toOrdinal b) = toOrdinal b := by
      unfold shiftWeekend
      rw [if_neg (by simpa using hwd5), if_neg (by simpa using hwd6)]
    rwa [this] at hmem

/-- Witness for the C2 theorem: today Monday 2024-06-03, Alice's
birthday anchored to Saturday 2024-06-08 (inside the window); the
greeting is shifted to Monday 2024-06-10, two days later. -/
theorem upcoming_weekend_shift_witness :
    (weekdayOfOrdinal (toOrdinal ⟨2024, 6, 8⟩) = 5 →
      ("Alice", toOrdinal ⟨2024, 6, 8⟩ + 2)
        ∈ [("Alice", toOrdinal ⟨2024, 6, 8⟩ + 2)])
    ∧ (weekdayOfOrdinal (toOrdinal ⟨2024, 6, 8⟩) = 6 →
        ("Alice", toOrdinal ⟨2024, 6, 8⟩ + 1)
          ∈ [("Alice", toOrdinal ⟨2024, 6, 8⟩ + 2)])
    ∧ (weekdayOfOrdinal (toOrdinal ⟨2024, 6, 8⟩) ≠ 5 →
        weekdayOfOrdinal (toOrdinal ⟨2024, 6, 8⟩) ≠ 6 →
        ("Alice", toOrdinal ⟨2024, 6, 8⟩)
          ∈ [("Alice", toOrdinal ⟨2024, 6, 8⟩ + 2)]) :=
  upcoming_weekend_shift
    ⟨[("Alice", ⟨"Alice", [], some ⟨"08.06.1990"⟩⟩)]⟩ ⟨2024, 6, 3⟩
    [("Alice", toOrdinal ⟨2024, 6, 8⟩ + 2)] (by decide)
    ⟨"Alice", [], some ⟨"08.06.1990"⟩⟩ (by decide)
    ⟨"08.06.1990"⟩ (by decide) ⟨1990, 6, 8⟩ (by decide)
    ⟨2024, 6, 8⟩ (by decide) (by decide) (by decide)

/-- C10: every reported greeting ordinal lies in
`[today, today + 8 days]`: the window test bounds the unshifted anchored
date by `today + 6`, and the weekend shift adds at most 2 more days. -/
theorem greeting_date_range (book : AddressBook) (today : PyDate)
    (l : List (String × Nat))
    (hres : book.get_upcoming_birthdays today = some l) :
    ∀ e ∈ l, toOrdinal today ≤ e.2 ∧ e.2 ≤ toOrdinal today + 8 := by
  obtain ⟨hord, L, hL, hsort⟩ := get_upcoming_eq_some hres
  intro e he
  have heL : e ∈ L := by
    rw [hsort] at he
    exact (List.perm_insertionSort _ L).mem_iff.mp he
  obtain ⟨r, hr, hentry⟩ := (collectEntries_mem book.values L hL e).mp heL
  obtain ⟨bObj, bd, b, hb, hs, ha, hw1, hw2, he2⟩ :=
    recordEntry_ok_some_iff.mp hentry
  have hshift : toOrdinal b ≤ shiftWeekend (toOrdinal b)
      ∧ shiftWeekend (toOrdinal b) ≤ toOrdinal b + 2 := by
    unfold shiftWeekend
    split_ifs <;> omega
  rw [he2]
  constructor
  · exact le_trans hw1 hshift.1
  · exact le_trans hshift.2 (by omega)

/-- Witness for the C10 theorem at the extreme point: today Sunday
2024-06-02, Alice's birthday anchored to Saturday 2024-06-08 = today+6;
the greeting lands on 2024-06-10 = today+8, inside the proved range. -/
theorem greeting_date_range_witness :
    toOrdinal ⟨2024, 6, 2⟩ ≤ toOrdinal ⟨2024, 6, 2⟩ + 8
    ∧ toOrdinal ⟨2024, 6, 2⟩ + 8 ≤ toOrdinal ⟨2024, 6, 2⟩ + 8 := by
  have h := greeting_date_range
    ⟨[("Alice", ⟨"Alice", [], some ⟨"08.06.1990"⟩⟩)]⟩ ⟨2024, 6, 2⟩
    [("Alice", toOrdinal ⟨2024, 6, 2⟩ + 8)] (by decide)
    ("Alice", toOrdinal ⟨2024, 6, 2⟩ + 8) (by decide)
  exact h

/-- C9 counterexample: even with no birthday set on any record, the call
raises at the very end of the representable range — `today +
timedelta(days=6)` overflows past `date.max = 9999-12-31` before the
loop even starts — instead of returning an empty sequence. -/
theorem upcoming_no_birthdays_overflow_counterexample :
    (∀ r ∈ AddressBook.values ⟨[("Ann", ⟨"Ann", [], none⟩)]⟩,
      r.birthday = none)
    ∧ AddressBook.get_upcoming_birthdays ⟨[("Ann", ⟨"Ann", [], none⟩)]⟩
        ⟨9999, 12, 31⟩ = none := by
  refine ⟨by decide, by decide⟩

/-- C9 amended: any successful result is sorted ascending by greeting
ordinal, and whenever no record has a birthday set the call returns the
empty sequence — provided the 7-day window does not extend past
`date.max` (for any today up to 9999-12-25; in the last six days of
year 9999 the `today + timedelta(days=6)` computation itself raises
`OverflowError`). -/
theorem upcoming_sorted_and_empty (book : AddressBook) (today : PyDate) :
    (∀ l, book.get_upcoming_birthdays today = some l →
      List.Pairwise (fun a b : String × Nat => a.2 ≤ b.2) l)
    ∧ (toOrdinal today + 6 ≤ pyDateMaxOrdinal →
        (∀ r ∈ book.values, r.birthday = none) →
        book.get_upcoming_birthdays today = some []) := by
  constructor
  · intro l h
    obtain ⟨hord, L, hL, hsort⟩ := get_upcoming_eq_some h
    rw [hsort]
    haveI ht : IsTotal (String × Nat) (fun a b => a.2 ≤ b.2) :=
      ⟨fun a b => Nat.le_total a.2 b.2⟩
    haveI htr : IsTrans (String × Nat) (fun a b => a.2 ≤ b.2) :=
      ⟨fun a b c hab hbc => Nat.le_trans hab hbc⟩
    exact List.sorted_insertionSort _ L
  · intro hord hb
    have hcoll : ∀ rs : List Record, (∀ r ∈ rs, r.birthday = none) →
        collectEntries today rs = some [] := by
      intro rs
      induction rs with
      | nil => intro _; rfl
      | cons r rs ih =>
        intro h
        have h1 : recordEntry today r = .ok none := by
          unfold recordEntry
          simp only [h r (List.mem_cons_self r rs)]
        unfold collectEntries
        simp only [h1]
        exact ih (fun r2 hr2 => h r2 (List.mem_cons_of_mem r hr2))
    unfold AddressBook.get_upcoming_birthdays
    rw [if_neg (by omega)]
    simp only [hcoll book.values hb]
    rfl

/-- Witness for the C9 amended theorem on a concrete birthday-less book
and an ordinary current date. -/
theorem upcoming_sorted_and_empty_witness :
    (∀ l, AddressBook.get_upcoming_birthdays
        ⟨[("Ann", ⟨"Ann", [], none⟩)]⟩ ⟨2024, 6, 3⟩ = some l →
      List.Pairwise (fun a b : String × Nat => a.2 ≤ b.2) l)
    ∧ (toOrdinal ⟨2024, 6, 3⟩ + 6 ≤ pyDateMaxOrdinal →
        (∀ r ∈ AddressBook.values ⟨[("Ann", ⟨"Ann", [], none⟩)]⟩,
          r.birthday = none) →
        AddressBook.get_upcoming_birthdays ⟨[("Ann", ⟨"Ann", [], none⟩)]⟩
          ⟨2024, 6, 3⟩ = some []) :=
  upcoming_sorted_and_empty ⟨[("Ann", ⟨"Ann", [], none⟩)]⟩ ⟨2024, 6, 3⟩

/-- A parsed `strptime` date satisfies the `datetime.date` validity
check. -/
lemma strptimeDMY_dateValid {s : String} {bd : PyDate}
    (h : strptimeDMY s = some bd) :
    dateValid bd.year bd.month bd.day = true := by
  unfold strptimeDMY at h
  cases hr : regexMatchDMY s.data with
  | none => rw [hr, Option.none_bind] at h; cases h
  | some t =>
    simp only [hr, Option.some_bind] at h
    by_cases hv : dateValid t.2.2 t.2.1 t.1 = true
    · rw [if_pos hv] at h
      injection h with h
      rw [← h]
      exact hv
    · rw [if_neg hv] at h
      cases h

/-- Re-anchoring a valid date that is not February 29 into any year of
the representable range stays valid (only February's length depends on
the year, and only at day 29). -/
lemma dateValid_replaceYear {y m d y2 : Nat} (h : dateValid y m d = true)
    (hnot : ¬(m = 2 ∧ d = 29)) (h1 : 1 ≤ y2) (h2 : y2 ≤ 9999) :
    dateValid y2 m d = true := by
  rw [dateValid_iff] at h ⊢
  obtain ⟨_, _, hm1, hm12, hd1, hdm⟩ := h
  refine ⟨h1, h2, hm1, hm12, hd1, ?_⟩
  by_cases hm : m = 2
  · subst hm
    have hne : d ≠ 29 := fun hc => hnot ⟨rfl, hc⟩
    have hle : daysInMonth y 2 ≤ 29 := by
      unfold daysInMonth
      split_ifs <;> omega
    have hge : 28 ≤ daysInMonth y2 2 := by
      unfold daysInMonth
      split_ifs <;> omega
    omega
  · have heq : daysInMonth y2 m = daysInMonth y m := by
      unfold daysInMonth
      rw [if_neg hm, if_neg hm]
    rw [heq]
    exact hdm

/-- Anchoring a valid non-February-29 birthday never raises when the
current year is at most 9998. -/
lemma anchorBirthday_isSome {today bd : PyDate}
    (hv : dateValid bd.year bd.month bd.day = true)
    (hnot : ¬(bd.month = 2 ∧ bd.day = 29))
    (hty1 : 1 ≤ today.year) (hty2 : today.year ≤ 9998) :
    ∃ b, anchorBirthday today bd = some b := by
  have hr1 : replaceYear bd today.year
      = some ⟨today.year, bd.month, bd.day⟩ := by
    unfold replaceYear
    rw [if_pos (dateValid_replaceYear hv hnot hty1 (by omega))]
  have hr2 : replaceYear bd (today.year + 1)
      = some ⟨today.year + 1, bd.month, bd.day⟩ := by
    unfold replaceYear
    rw [if_pos (dateValid_replaceYear hv hnot (by omega) (by omega))]
  unfold anchorBirthday
  simp only [hr1]
  by_cases hlt :
      toOrdinal ⟨today.year, bd.month, bd.day⟩ < toOrdinal today
  · rw [if_pos hlt, hr2]
    exact ⟨_, rfl⟩
  · rw [if_neg hlt]
    exact ⟨_, rfl⟩

/-- A loop iteration can only raise on a stored February 29 birthday
(given an in-range current year). -/
lemma recordEntry_no_error {today : PyDate} {r : Record}
    (hty1 : 1 ≤ today.year) (hty2 : today.year ≤ 9998)
    (hb : recordFeb29 r = false) :
    recordEntry today r ≠ .error () := by
  unfold recordEntry
  cases hbo : r.birthday with
  | none => simp
  | some bObj =>
    cases hs : strptimeDMY bObj.value with
    | none => simp [hs]
    | some bd =>
      have hv : dateValid bd.year bd.month bd.day = true :=
        strptimeDMY_dateValid hs
      have hnot : ¬(bd.month = 2 ∧ bd.day = 29) := by
        unfold recordFeb29 at hb
        simp only [hbo, hs] at hb
        rintro ⟨h2, h29⟩
        rw [h2, h29] at hb
        simp at hb
      obtain ⟨b, hab⟩ := anchorBirthday_isSome hv hnot hty1 hty2
      simp only [hs, hab]
      by_cases hw : (toOrdinal today ≤ toOrdinal b
          && toOrdinal b ≤ toOrdinal today + 6) = true
      · rw [if_pos hw]
        intro h
        cases h
      · rw [if_neg hw]
        intro h
        cases h

set_option maxHeartbeats 2000000 in
/-- The days-before-month table never exceeds 335. -/
lemma daysBeforeMonth_le_335 (y m : Nat) : daysBeforeMonth y m ≤ 335 := by
  unfold daysBeforeMonth
  split_ifs <;> omega

/-- Concrete value of the maximal ordinal, `date(9999,12,31).toordinal()`
in Python. -/
lemma pyDateMaxOrdinal_eq : pyDateMaxOrdinal = 3652059 := by decide

/-- Any valid date with year at most 9998 leaves the week-long window
inside the representable range. -/
lemma window_le_max {dt : PyDate}
    (hv : dateValid dt.year dt.month dt.day = true)
    (hy : dt.year ≤ 9998) :
    toOrdinal dt + 6 ≤ pyDateMaxOrdinal := by
  obtain ⟨h1, h2, hm1, hm12, hd1, hdm⟩ := dateValid_iff.mp hv
  have hd31 : dt.day ≤ 31 := le_trans hdm (daysInMonth_le_31 _ _)
  have hdbm : daysBeforeMonth dt.year dt.month ≤ 335 :=
    daysBeforeMonth_le_335 dt.year dt.month
  have hmax : pyDateMaxOrdinal = 3652059 := pyDateMaxOrdinal_eq
  have hyy : dt.year - 1 ≤ 9997 := by omega
  have hq4 : (dt.year - 1) / 4 ≤ 2499 :=
    le_trans (Nat.div_le_div_right hyy) (by norm_num)
  have hq400 : (dt.year - 1) / 400 ≤ 24 :=
    le_trans (Nat.div_le_div_right hyy) (by norm_num)
  unfold toOrdinal
  omega

/-- C3 counterexample: the Birthday `"29.02.2000"` is successfully
constructed (2000 is a leap year), yet on the current date 2023-03-01
(a non-leap year) `get_upcoming_birthdays` raises: line 128's
`bday_date.replace(year=today.year)` fails for February 29 in 2023 and
the `ValueError` is not caught by the `try` of line 123, which only
covers the `strptime` call. -/
theorem upcoming_feb29_crash_counterexample :
    Birthday.make "29.02.2000" = .ok ⟨"29.02.2000"⟩
    ∧ AddressBook.get_upcoming_birthdays
        ⟨[("Olia", ⟨"Olia", [], some ⟨"29.02.2000"⟩⟩)]⟩
        ⟨2023, 3, 1⟩ = none := by
  refine ⟨by decide, by decide⟩

/-- C3 amended: for every current date (valid, with year at most 9998 so
that neither the `today + timedelta(days=6)` window bound nor the
next-year re-anchoring leaves the representable range),
`get_upcoming_birthdays` completes without raising and returns a
sequence, provided no record stores a February 29 birthday — the one
stored-birthday shape whose `replace(year=...)` can raise. -/
theorem upcoming_total_without_feb29 (book : AddressBook) (today : PyDate)
    (hvt : dateValid today.year today.month today.day = true)
    (hy : today.year ≤ 9998)
    (hb : ∀ r ∈ book.values, recordFeb29 r = false) :
    ∃ l, book.get_upcoming_birthdays today = some l := by
  have hty1 : 1 ≤ today.year := (dateValid_iff.mp hvt).1
  obtain ⟨L, hL⟩ := collectEntries_isSome book.values
    (fun r hr => recordEntry_no_error hty1 hy (hb r hr))
  have hord : toOrdinal today + 6 ≤ pyDateMaxOrdinal := window_le_max hvt hy
  unfold AddressBook.get_upcoming_birthdays
  rw [if_neg (by omega)]
  simp only [hL]
  exact ⟨_, rfl⟩

/-- Witness for the C3 amended theorem: a book with two ordinary
birthdays completes on a concrete current date. -/
theorem upcoming_total_without_feb29_witness :
    ∃ l, AddressBook.get_upcoming_birthdays
      ⟨[("Alice", ⟨"Alice", [], some ⟨"10.06.1990"⟩⟩),
        ("Bob", ⟨"Bob", [], some ⟨"25.12.1988"⟩⟩)]⟩
      ⟨2024, 6, 8⟩ = some l :=
  upcoming_total_without_feb29
    ⟨[("Alice", ⟨"Alice", [], some ⟨"10.06.1990"⟩⟩),
      ("Bob", ⟨"Bob", [], some ⟨"25.12.1988"⟩⟩)]⟩
    ⟨2024, 6, 8⟩ (by decide) (by decide) (by decide)

/-- Witness for the C4 theorem at a concrete ten-digit string. -/
theorem phone_construction_characterization_witness :
    (Phone.make "0123456789" = .ok ⟨"0123456789"⟩
      ∨ Phone.make "0123456789"
          = .error (.valueError "Phone number must contain exactly 10 digits."))
    ∧ (Phone.make "0123456789" = .ok ⟨"0123456789"⟩
        ↔ ("0123456789".length = 10
            ∧ ∀ c ∈ "0123456789".data, pyIsDigitChar c = true)) :=
  phone_construction_characterization "0123456789"

/-- Witness for the C5 theorem at a concrete date string. -/
theorem birthday_construction_characterization_witness :
    (Birthday.make "25.12.1990" = .ok ⟨"25.12.1990"⟩
      ∨ Birthday.make "25.12.1990"
          = .error (.valueError "Invalid date format. Use DD.MM.YYYY"))
    ∧ (Birthday.make "25.12.1990" = .ok ⟨"25.12.1990"⟩
        ↔ lenientDMYRep "25.12.1990") :=
  birthday_construction_characterization "25.12.1990"
